import Mathlib

/-!
# ArchaeoMap page script (`main.js`)

A shallow embedding of the three behaviours of `main.js`:

* the `DOMContentLoaded` handler that builds the particle background,
* the click handler installed on every `a[href^="#"]`,
* the `mousemove` handler installed on every `.btn`.

The DOM is a node store: a list of elements addressed by their position, the
way the script holds elements by reference.  The services of the browser that
the script calls but does not define (`Math.random`, `document.querySelector`
on a selector read from the page, `getBoundingClientRect`) are the fields of
`Host`.  Numbers are rationals.  The particle loop rounds each product and sum
to the nearest binary64 number (`roundBinary64`), as the engine does; the one
subtraction of the glow handler is taken exact.
-/

namespace ArchaeoMap

/-! ## Data model -/

/-- A number followed by a unit, the shape of every style value the script
writes: `Math.random() * 100 + "%"` is the product, rounded, with unit `%`. -/
structure CssValue where
  num : ℚ
  unit : String
deriving DecidableEq

/-- An element of the page. `children` holds the positions of the child
elements in the node store, in order. -/
structure Element where
  localName : String
  id : String
  classList : List String
  attributes : List (String × String)
  style : List (String × CssValue)
  children : List Nat
deriving DecidableEq

/-- What a listener is attached to. -/
inductive EventTarget where
  | document
  | node (n : Nat)
deriving DecidableEq

/-- The three function values the script passes to `addEventListener`.
The click handler reads `this`; the glow handler closes over `btn`. -/
inductive Handler where
  | particleBackground
  | smoothScroll
  | buttonGlow (btn : Nat)
deriving DecidableEq

/-- One `addEventListener` registration. -/
structure Listener where
  target : EventTarget
  eventType : String
  handler : Handler
deriving DecidableEq

/-- The state of the page: the node store, the position of `document.body`,
the registered listeners, and the number of `Math.random()` calls made. -/
structure World where
  nodes : List Element
  body : Nat
  listeners : List Listener
  draws : Nat
deriving DecidableEq

/-- Exceptions the handlers can end with. -/
inductive JsError where
  | typeError
  | syntaxError
deriving DecidableEq

/-- The rectangle returned by `getBoundingClientRect`. -/
structure DOMRect where
  left : ℚ
  top : ℚ
  width : ℚ
  height : ℚ
deriving DecidableEq

/-- The fields of a `mousemove` event the script reads. -/
structure MouseEvent where
  clientX : ℚ
  clientY : ℚ
deriving DecidableEq

/-- The browser services the script calls: `random k` is the value of the
`k`-th call of `Math.random()`; `querySelector nodes sel` is
`document.querySelector(sel)` on the current document (`none` for `null`, an
error for a selector that does not parse); `getBoundingClientRect n` is the
layout rectangle of element `n`. -/
structure Host where
  random : Nat → ℚ
  querySelector : List Element → String → Except JsError (Option Nat)
  getBoundingClientRect : Nat → DOMRect

/-- Calls on the event and on elements that a click handler makes. -/
inductive Call where
  | preventDefault
  | scrollIntoView (target : Nat) (behavior : String)
deriving DecidableEq

/-- The outcome of one handler run: the page afterwards, the calls made in
order, and the exception the run ended with, if any. -/
structure Run where
  world : World
  calls : List Call
  thrown : Option JsError
deriving DecidableEq

/-! ## Binary64 arithmetic -/

/-- Round to the nearest integer, a tie going to the even neighbour. -/
def roundHalfEven (n : ℚ) : ℤ :=
  let f := ⌊n⌋
  if n - f < 1 / 2 then f
  else if 1 / 2 < n - f then f + 1
  else if f % 2 = 0 then f else f + 1

/-- The exponent `e` with `2 ^ e ≤ x < 2 ^ (e + 1)` for positive `x`, held at
`-1022` for the subnormal numbers. -/
def binade (x : ℚ) : ℤ := max (Int.log 2 x) (-1022)

/-- The spacing of the binary64 numbers in the binade of `x`: 52 fraction
bits. -/
def ulp (x : ℚ) : ℚ := 2 ^ (binade x - 52)

/-- The binary64 result of an operation whose exact result is `x`: the nearest
multiple of `ulp`, ties to even. Overflow to `Infinity` is not modelled; the
numbers of the particle loop stay below 128. -/
def roundBinary64 (x : ℚ) : ℚ :=
  if x < 0 then -(roundHalfEven (-x / ulp (-x)) * ulp (-x))
  else roundHalfEven (x / ulp x) * ulp x

/-! ## DOM primitives -/

/-- Apply `f` to the entry at position `n`; other entries are kept. -/
def modifyAt {α : Type} (f : α → α) : Nat → List α → List α
  | _, [] => []
  | 0, x :: xs => f x :: xs
  | n + 1, x :: xs => x :: modifyAt f n xs

/-- Set a declaration of an inline style: an existing declaration of that
property is overwritten in place, otherwise the declaration is added. -/
def setDecl (name : String) (v : CssValue) :
    List (String × CssValue) → List (String × CssValue)
  | [] => [(name, v)]
  | (k, u) :: rest =>
    if k = name then (k, v) :: rest else (k, u) :: setDecl name v rest

/-- Read a declaration of an inline style. -/
def getDecl (name : String) : List (String × CssValue) → Option CssValue
  | [] => none
  | (k, u) :: rest => if k = name then some u else getDecl name rest

/-- The element at position `n`, if there is one. -/
def World.node? (w : World) (n : Nat) : Option Element := w.nodes[n]?

/-- Value of `el.style.getPropertyValue(name)` for element `n`. -/
def getPropertyValue (w : World) (n : Nat) (name : String) : Option CssValue :=
  (w.node? n).bind (fun e => getDecl name e.style)

/-- The call `document.createElement(tag)`: a fresh element with no id, class,
attribute, style or child; the result is its position. -/
def createElement (w : World) (tag : String) : Nat × World :=
  (w.nodes.length,
    { w with nodes := w.nodes ++ [⟨tag, "", [], [], [], []⟩] })

/-- The assignment `el.id = v`. -/
def setId (w : World) (n : Nat) (v : String) : World :=
  { w with nodes := modifyAt (fun e => { e with id := v }) n w.nodes }

/-- The call `el.classList.add(c)`. -/
def classListAdd (w : World) (n : Nat) (c : String) : World :=
  let add := fun (e : Element) =>
    if c ∈ e.classList then e else { e with classList := e.classList ++ [c] }
  { w with nodes := modifyAt add n w.nodes }

/-- The call `el.style.setProperty(name, v)`, also the assignment
`el.style.name = v`. -/
def setProperty (w : World) (n : Nat) (name : String) (v : CssValue) : World :=
  let set := fun (e : Element) => { e with style := setDecl name v e.style }
  { w with nodes := modifyAt set n w.nodes }

/-- The call `parent.appendChild(child)` for a child that has no parent yet
(the script only appends elements it has just created). -/
def appendChild (w : World) (parent child : Nat) : World :=
  let add := fun (e : Element) => { e with children := e.children ++ [child] }
  { w with nodes := modifyAt add parent w.nodes }

/-- The call `Math.random()`. -/
def mathRandom (host : Host) (w : World) : ℚ × World :=
  (host.random w.draws, { w with draws := w.draws + 1 })

/-- The call `el.getAttribute(name)`. -/
def getAttribute (w : World) (n : Nat) (name : String) : Option String :=
  (w.node? n).bind (fun e => e.attributes.lookup name)

/-- The call `target.addEventListener(type, handler)`. -/
def addEventListener (w : World) (t : EventTarget) (ty : String)
    (h : Handler) : World :=
  { w with listeners := w.listeners ++ [⟨t, ty, h⟩] }

/-- The positions of the elements of the document that satisfy `p`, in store
order: `document.querySelectorAll` for a selector whose meaning is `p`. The
script calls it at setup, when every element in the store is in the
document. -/
def querySelectorAll (p : Element → Bool) (w : World) : List Nat :=
  (List.range w.nodes.length).filter
    (fun n => match w.node? n with
      | some e => p e
      | none => false)

/-- Whether a string begins with `#`. -/
def beginsWithHash (s : String) : Bool :=
  match s.data with
  | c :: _ => c == '#'
  | [] => false

/-- The selector `a[href^="#"]`. -/
def isFragmentAnchor (e : Element) : Bool :=
  e.localName == "a" &&
    (match e.attributes.lookup "href" with
      | some v => beginsWithHash v
      | none => false)

/-- The selector `.btn`. -/
def isBtn (e : Element) : Bool := e.classList.contains "btn"

/-! ## The script -/

/-- The constant `numParticles`. -/
def numParticles : Nat := 60

/-- One pass through the body of the particle loop (lines 9 to 15). Each
product and the one sum are rounded to binary64. -/
def particleStep (host : Host) (bg : Nat) (w : World) : World :=
  let (p, w) := createElement w "div"
  let w := classListAdd w p "particle"
  let (r1, w) := mathRandom host w
  let w := setProperty w p "left" ⟨roundBinary64 (r1 * 100), "%"⟩
  let (r2, w) := mathRandom host w
  let w := setProperty w p "bottom" ⟨roundBinary64 (r2 * 100), "px"⟩
  let (r3, w) := mathRandom host w
  let w := setProperty w p "animationDuration"
    ⟨roundBinary64 (8 + roundBinary64 (r3 * 8)), "s"⟩
  let (r4, w) := mathRandom host w
  let w := setProperty w p "animationDelay" ⟨roundBinary64 (r4 * 10), "s"⟩
  appendChild w bg p

/-- The loop `for (let i = 0; i < numParticles; i++)`, by the number of passes
still to run; the body does not read `i`. -/
def particleLoop (host : Host) (bg : Nat) : Nat → World → World
  | 0, w => w
  | k + 1, w => particleLoop host bg k (particleStep host bg w)

/-- The `DOMContentLoaded` handler (lines 2 to 17). -/
def particleBackground (host : Host) (w : World) : World :=
  let (bg, w) := createElement w "div"
  let w := setId w bg "particle-bg"
  let w := appendChild w w.body bg
  particleLoop host bg numParticles w

/-- The click handler (lines 21 to 26), run with `this` bound to the element
the listener is attached to. A missing `href` reads as `null`, which
`querySelector` takes as the string `null`; calling `scrollIntoView` on a
`null` lookup result is a `TypeError`. -/
def smoothScroll (host : Host) (w : World) (this : Nat) : Run :=
  let calls := [Call.preventDefault]
  let href := (getAttribute w this "href").getD "null"
  match host.querySelector w.nodes href with
  | .error err => ⟨w, calls, some err⟩
  | .ok none => ⟨w, calls, some JsError.typeError⟩
  | .ok (some t) => ⟨w, calls ++ [Call.scrollIntoView t "smooth"], none⟩

/-- The `mousemove` handler (lines 32 to 38) of button `btn`. -/
def buttonGlow (host : Host) (btn : Nat) (e : MouseEvent) (w : World) : World :=
  let rect := host.getBoundingClientRect btn
  let x := e.clientX - rect.left
  let y := e.clientY - rect.top
  let w := setProperty w btn "--x" ⟨x, "px"⟩
  setProperty w btn "--y" ⟨y, "px"⟩

/-- The top level of the script: the three registrations, in order. -/
def setup (w : World) : World :=
  let w := addEventListener w EventTarget.document "DOMContentLoaded"
    Handler.particleBackground
  let w := (querySelectorAll isFragmentAnchor w).foldl
    (fun w anchor =>
      addEventListener w (EventTarget.node anchor) "click" Handler.smoothScroll)
    w
  let buttons := querySelectorAll isBtn w
  buttons.foldl
    (fun w btn =>
      addEventListener w (EventTarget.node btn) "mousemove"
        (Handler.buttonGlow btn))
    w

/-! ## Derived notions used in the statements -/

/-- The particle built by a loop pass whose first draw is draw number `d`. -/
def particleAt (host : Host) (d : Nat) : Element :=
  { localName := "div", id := "", classList := ["particle"], attributes := [],
    style :=
      [ ("left", ⟨roundBinary64 (host.random d * 100), "%"⟩),
        ("bottom", ⟨roundBinary64 (host.random (d + 1) * 100), "px"⟩),
        ("animationDuration",
          ⟨roundBinary64 (8 + roundBinary64 (host.random (d + 2) * 8)), "s"⟩),
        ("animationDelay", ⟨roundBinary64 (host.random (d + 3) * 10), "s"⟩) ],
    children := [] }

/-- The container as the handler leaves it when it was created at position
`l`. -/
def containerAt (l : Nat) : Element :=
  { localName := "div", id := "particle-bg", classList := [], attributes := [],
    style := [], children := List.range' (l + 1) numParticles }

/-- Add child positions at the end of an element's child list. -/
def addChildren (cs : List Nat) (e : Element) : Element :=
  { e with children := e.children ++ cs }

/-- The child positions of element `n`; empty when there is no such element. -/
def childrenOf (w : World) (n : Nat) : List Nat :=
  match w.node? n with
  | some e => e.children
  | none => []

/-- Whether element `p` is a `div` carrying the class `particle`. -/
def isParticle (w : World) (p : Nat) : Bool :=
  match w.node? p with
  | some e => e.localName == "div" && e.classList.contains "particle"
  | none => false

/-- Whether element `c` has the id `particle-bg`. -/
def isParticleContainer (w : World) (c : Nat) : Bool :=
  match w.node? c with
  | some e => e.id == "particle-bg"
  | none => false

/-- The children of `document.body` that have the id `particle-bg`. -/
def containers (w : World) : List Nat :=
  (childrenOf w w.body).filter (isParticleContainer w)

/-- The element after the glow handler has written `x` and `y`. -/
def glowElement (x y : CssValue) (el : Element) : Element :=
  { el with style := setDecl "--y" y (setDecl "--x" x el.style) }

/-- The offsets the glow handler computes for button `btn` and event `e`. -/
def glowX (host : Host) (btn : Nat) (e : MouseEvent) : CssValue :=
  ⟨e.clientX - (host.getBoundingClientRect btn).left, "px"⟩

/-- The vertical counterpart of `glowX`. -/
def glowY (host : Host) (btn : Nat) (e : MouseEvent) : CssValue :=
  ⟨e.clientY - (host.getBoundingClientRect btn).top, "px"⟩

/-- The listener the script puts on `document`. -/
def loadListener : Listener :=
  ⟨EventTarget.document, "DOMContentLoaded", Handler.particleBackground⟩

/-- The listener the script puts on anchor `a`. -/
def clickListener (a : Nat) : Listener :=
  ⟨EventTarget.node a, "click", Handler.smoothScroll⟩

/-- The listener the script puts on button `b`. -/
def glowListener (b : Nat) : Listener :=
  ⟨EventTarget.node b, "mousemove", Handler.buttonGlow b⟩

/-- The number of `click` listeners in `ls` attached to `t`. -/
def clickCount (ls : List Listener) (t : EventTarget) : Nat :=
  (ls.filter (fun l => l.eventType == "click" && l.target == t)).length

/-- The page after `n` runs of the page-load handler. -/
def particleBackgroundRuns (host : Host) : Nat → World → World
  | 0, w => w
  | n + 1, w => particleBackground host (particleBackgroundRuns host n w)

/-- What holds of a page on which the page-load handler has run `n` times,
starting from a page whose body held no container. -/
structure RunsInv (w : World) (n : Nat) : Prop where
  body_lt : w.body < w.nodes.length
  children_lt : ∀ c ∈ childrenOf w w.body, c < w.nodes.length
  count : (containers w).length = n
  nodup : (containers w).Nodup
  container : ∀ c ∈ containers w, c ≠ w.body ∧
    (childrenOf w c).length = numParticles ∧
    ∀ p ∈ childrenOf w c, p < w.nodes.length ∧ isParticle w p = true
  particles_nodup : ((containers w).flatMap (childrenOf w)).Nodup

/-! ## A concrete host and pages, for evaluation -/

/-- Position of the first element with the given id. -/
def findById (name : String) : List Element → Option Nat
  | [] => none
  | e :: es => if e.id = name then some 0 else (findById name es).map (· + 1)

/-- A selector engine for ID selectors: `#name` finds the first element whose
id is `name`; a lone `#` does not parse. Other selectors are outside this
sample engine and are rejected as well. -/
def querySelectorById (nodes : List Element) (sel : String) :
    Except JsError (Option Nat) :=
  match sel.data with
  | '#' :: c :: cs => .ok (findById (String.mk (c :: cs)) nodes)
  | _ => .error JsError.syntaxError

/-- A host whose random source always returns one half and whose layout puts
every element at `(10, 20)`. -/
def sampleHost : Host where
  random := fun _ => 1 / 2
  querySelector := querySelectorById
  getBoundingClientRect := fun _ => ⟨10, 20, 100, 40⟩

/-- A page: `body` (0) holding a section with id `map` (1), a link to `#map`
(2), a link to `#missing` (3) and a `.btn` element (4). -/
def samplePage : World where
  nodes :=
    [ ⟨"body", "", [], [], [], [1, 2, 3, 4]⟩,
      ⟨"section", "map", [], [], [], []⟩,
      ⟨"a", "", [], [("href", "#map")], [], []⟩,
      ⟨"a", "", [], [("href", "#missing")], [], []⟩,
      ⟨"button", "", ["btn"], [], [("color", ⟨1, "em"⟩)], []⟩ ]
  body := 0
  listeners := []
  draws := 0

/-- The largest binary64 number below 1. -/
def edgeDraw : ℚ := 1 - 1 / 2 ^ 53

/-- A host whose random source always returns `edgeDraw`. -/
def edgeHost : Host where
  random := fun _ => edgeDraw
  querySelector := querySelectorById
  getBoundingClientRect := fun _ => ⟨10, 20, 100, 40⟩

/-- A page with no anchor and no `.btn` element. -/
def barePage : World where
  nodes := [⟨"body", "", [], [], [], []⟩]
  body := 0
  listeners := []
  draws := 0

/-! ## Lemmas on binary64 rounding -/

theorem roundHalfEven_cases (n : ℚ) :
    roundHalfEven n = ⌊n⌋ ∧ n - ⌊n⌋ ≤ 1 / 2 ∨
    roundHalfEven n = ⌊n⌋ + 1 ∧ 1 / 2 ≤ n - ⌊n⌋ := by
  unfold roundHalfEven
  simp only []
  split_ifs with h1 h2 h3
  · exact Or.inl ⟨rfl, le_of_lt h1⟩
  · exact Or.inr ⟨rfl, le_of_lt h2⟩
  · exact Or.inl ⟨rfl, not_lt.mp h2⟩
  · exact Or.inr ⟨rfl, not_lt.mp h1⟩

theorem roundHalfEven_le_add_half (n : ℚ) : (roundHalfEven n : ℚ) ≤ n + 1 / 2 := by
  have hf := Int.floor_le n
  rcases roundHalfEven_cases n with ⟨h, _⟩ | ⟨h, h2⟩
  · rw [h]; linarith
  · rw [h]; push_cast; linarith

theorem roundHalfEven_le_int (n : ℚ) (N : ℤ) (h : n ≤ N) : roundHalfEven n ≤ N := by
  have hf : ⌊n⌋ ≤ N := by
    have := Int.floor_le_floor h
    simpa using this
  rcases roundHalfEven_cases n with ⟨h1, _⟩ | ⟨h1, h2⟩
  · rw [h1]; exact hf
  · rw [h1]
    by_contra hc
    have hN : ⌊n⌋ = N := by omega
    have : (⌊n⌋ : ℚ) = N := by exact_mod_cast hN
    linarith

theorem int_le_roundHalfEven (n : ℚ) (N : ℤ) (h : (N : ℚ) ≤ n) : N ≤ roundHalfEven n := by
  have hf : N ≤ ⌊n⌋ := Int.le_floor.mpr h
  rcases roundHalfEven_cases n with ⟨h1, _⟩ | ⟨h1, _⟩
  · rw [h1]; exact hf
  · rw [h1]; omega

theorem roundHalfEven_int (N : ℤ) : roundHalfEven (N : ℚ) = N :=
  le_antisymm (roundHalfEven_le_int _ N le_rfl) (int_le_roundHalfEven _ N le_rfl)

theorem ulp_pos (x : ℚ) : 0 < ulp x := by
  unfold ulp
  positivity

theorem binade_le (x : ℚ) (e : ℤ) (h0 : 0 ≤ x) (hx : x < 2 ^ (e + 1)) (he : -1022 ≤ e)
    (he0 : 0 ≤ e ∨ 0 < x) : binade x ≤ e := by
  unfold binade
  apply max_le _ he
  rcases eq_or_lt_of_le h0 with h | h
  · rw [← h, Int.log_zero_right]
    rcases he0 with h1 | h1
    · exact h1
    · exact absurd h1 (by rw [← h]; exact lt_irrefl _)
  · have := (Int.lt_zpow_iff_log_lt (b := 2) (by norm_num) h (x := e + 1)).mp (by simpa using hx)
    omega

theorem binade_eq (x : ℚ) (e : ℤ) (hl : 2 ^ e ≤ x) (hx : x < 2 ^ (e + 1))
    (he : -1022 ≤ e) : binade x = e := by
  have hpos : (0 : ℚ) < x := lt_of_lt_of_le (by positivity) hl
  have h1 := (Int.lt_zpow_iff_log_lt (b := 2) (by norm_num) hpos (x := e + 1)).mp (by simpa using hx)
  have h2 := (Int.zpow_le_iff_le_log (b := 2) (by norm_num) hpos (x := e)).mp (by simpa using hl)
  unfold binade
  rw [max_eq_left (by omega)]
  omega

theorem roundBinary64_le_add_half (x : ℚ) (h0 : 0 ≤ x) :
    roundBinary64 x ≤ x + ulp x / 2 := by
  unfold roundBinary64
  rw [if_neg (not_lt.mpr h0)]
  have hu := ulp_pos x
  have h := roundHalfEven_le_add_half (x / ulp x)
  calc (roundHalfEven (x / ulp x) : ℚ) * ulp x
      ≤ (x / ulp x + 1 / 2) * ulp x := mul_le_mul_of_nonneg_right h hu.le
    _ = x + ulp x / 2 := by
        field_simp
        ring

theorem zpow_eq_int_mul_ulp (x : ℚ) (k : ℤ) (hk : binade x ≤ k + 52) :
    ∃ N : ℤ, (2 : ℚ) ^ k = N * ulp x := by
  refine ⟨2 ^ (k + 52 - binade x).toNat, ?_⟩
  unfold ulp
  push_cast
  rw [← zpow_natCast, Int.toNat_of_nonneg (by omega), ← zpow_add₀ (by norm_num)]
  congr 1
  ring

theorem roundBinary64_le_zpow (x : ℚ) (k : ℤ) (h0 : 0 ≤ x) (hx : x ≤ 2 ^ k)
    (hk : binade x ≤ k + 52) : roundBinary64 x ≤ 2 ^ k := by
  obtain ⟨N, hN⟩ := zpow_eq_int_mul_ulp x k hk
  unfold roundBinary64
  rw [if_neg (not_lt.mpr h0), hN]
  have hu := ulp_pos x
  apply mul_le_mul_of_nonneg_right _ hu.le
  have : roundHalfEven (x / ulp x) ≤ N := by
    apply roundHalfEven_le_int
    rw [div_le_iff₀ hu, ← hN]
    exact hx
  exact_mod_cast this

theorem zpow_le_roundBinary64 (x : ℚ) (k : ℤ) (hx : 2 ^ k ≤ x)
    (hk : binade x ≤ k + 52) : 2 ^ k ≤ roundBinary64 x := by
  have h0 : (0 : ℚ) ≤ x := le_trans (by positivity) hx
  obtain ⟨N, hN⟩ := zpow_eq_int_mul_ulp x k hk
  unfold roundBinary64
  rw [if_neg (not_lt.mpr h0), hN]
  have hu := ulp_pos x
  apply mul_le_mul_of_nonneg_right _ hu.le
  have : N ≤ roundHalfEven (x / ulp x) := by
    apply int_le_roundHalfEven
    rw [le_div_iff₀ hu, ← hN]
    exact hx
  exact_mod_cast this

theorem roundBinary64_nonneg (x : ℚ) (h0 : 0 ≤ x) : 0 ≤ roundBinary64 x := by
  unfold roundBinary64
  rw [if_neg (not_lt.mpr h0)]
  apply mul_nonneg _ (ulp_pos x).le
  have : (0 : ℤ) ≤ roundHalfEven (x / ulp x) := by
    apply int_le_roundHalfEven
    simpa using div_nonneg h0 (ulp_pos x).le
  exact_mod_cast this

theorem roundBinary64_of_binade (x : ℚ) (e : ℤ) (hl : 2 ^ e ≤ x) (hx : x < 2 ^ (e + 1))
    (he : -1022 ≤ e) :
    roundBinary64 x = roundHalfEven (x / 2 ^ (e - 52)) * 2 ^ (e - 52) := by
  have h0 : (0 : ℚ) ≤ x := le_trans (by positivity) hl
  unfold roundBinary64 ulp
  rw [if_neg (not_lt.mpr h0), binade_eq x e hl hx he]

theorem ulp_le (x : ℚ) (e : ℤ) (h : binade x ≤ e) : ulp x ≤ 2 ^ (e - 52) := by
  unfold ulp
  exact zpow_le_zpow_right₀ (by norm_num) (by omega)

theorem draw_le (r : ℚ) (h1 : r < 1) (hr : roundBinary64 r = r) :
    r ≤ 1 - 1 / 2 ^ 53 := by
  by_cases h : r < 1 / 2
  · have : (1 : ℚ) / 2 ≤ 1 - 1 / 2 ^ 53 := by norm_num
    linarith
  · have hl : (2 : ℚ) ^ (-1 : ℤ) ≤ r := by
      rw [zpow_neg_one]
      linarith [not_lt.mp h, (by norm_num : (2 : ℚ)⁻¹ = 1 / 2)]
    have hx : r < 2 ^ ((-1 : ℤ) + 1) := by simpa using h1
    rw [roundBinary64_of_binade r (-1) hl hx (by norm_num)] at hr
    have hp : (2 : ℚ) ^ ((-1 : ℤ) - 52) = 1 / 2 ^ 53 := by
      rw [show ((-1 : ℤ) - 52) = -(53 : ℕ) by norm_num, zpow_neg, zpow_natCast]
      norm_num
    rw [hp] at hr
    generalize roundHalfEven (r / (1 / 2 ^ 53)) = m at hr
    have hm : (m : ℚ) < 2 ^ 53 := by
      have : (m : ℚ) * (1 / 2 ^ 53) < 1 := by rw [hr]; exact h1
      have h2 : (0 : ℚ) < 2 ^ 53 := by positivity
      calc (m : ℚ) = (m : ℚ) * (1 / 2 ^ 53) * 2 ^ 53 := by field_simp
        _ < 1 * 2 ^ 53 := mul_lt_mul_of_pos_right this h2
        _ = 2 ^ 53 := one_mul _
    have hm2 : m < 2 ^ 53 := by exact_mod_cast hm
    have hm3 : (m : ℚ) ≤ 2 ^ 53 - 1 := by
      have : m ≤ 2 ^ 53 - 1 := by omega
      exact_mod_cast this
    rw [← hr]
    calc (m : ℚ) * (1 / 2 ^ 53) ≤ (2 ^ 53 - 1) * (1 / 2 ^ 53) :=
          mul_le_mul_of_nonneg_right hm3 (by positivity)
      _ = 1 - 1 / 2 ^ 53 := by norm_num

theorem times100_range (r : ℚ) (h0 : 0 ≤ r) (h1 : r < 1) (hr : roundBinary64 r = r) :
    0 ≤ roundBinary64 (r * 100) ∧ roundBinary64 (r * 100) < 100 := by
  have hd := draw_le r h1 hr
  have hx0 : 0 ≤ r * 100 := by linarith
  have hb : binade (r * 100) ≤ 6 :=
    binade_le _ 6 hx0 (by norm_num; linarith) (by norm_num) (Or.inl (by norm_num))
  have hu := ulp_le _ 6 hb
  have hp : (2 : ℚ) ^ ((6 : ℤ) - 52) = 1 / 2 ^ 46 := by
    rw [show ((6 : ℤ) - 52) = -(46 : ℕ) by norm_num, zpow_neg, zpow_natCast]
    norm_num
  rw [hp] at hu
  refine ⟨roundBinary64_nonneg _ hx0, ?_⟩
  have h := roundBinary64_le_add_half _ hx0
  have hn : (1 - 1 / 2 ^ 53 : ℚ) * 100 + 1 / 2 ^ 46 / 2 < 100 := by norm_num
  linarith

theorem times10_range (r : ℚ) (h0 : 0 ≤ r) (h1 : r < 1) (hr : roundBinary64 r = r) :
    0 ≤ roundBinary64 (r * 10) ∧ roundBinary64 (r * 10) < 10 := by
  have hd := draw_le r h1 hr
  have hx0 : 0 ≤ r * 10 := by linarith
  have hb : binade (r * 10) ≤ 3 :=
    binade_le _ 3 hx0 (by norm_num; linarith) (by norm_num) (Or.inl (by norm_num))
  have hu := ulp_le _ 3 hb
  have hp : (2 : ℚ) ^ ((3 : ℤ) - 52) = 1 / 2 ^ 49 := by
    rw [show ((3 : ℤ) - 52) = -(49 : ℕ) by norm_num, zpow_neg, zpow_natCast]
    norm_num
  rw [hp] at hu
  refine ⟨roundBinary64_nonneg _ hx0, ?_⟩
  have h := roundBinary64_le_add_half _ hx0
  have hn : (1 - 1 / 2 ^ 53 : ℚ) * 10 + 1 / 2 ^ 49 / 2 < 10 := by norm_num
  linarith

theorem duration_range (r : ℚ) (h0 : 0 ≤ r) (h1 : r < 1) :
    8 ≤ roundBinary64 (8 + roundBinary64 (r * 8)) ∧
    roundBinary64 (8 + roundBinary64 (r * 8)) ≤ 16 := by
  have hx0 : 0 ≤ r * 8 := by linarith
  have hy0 := roundBinary64_nonneg _ hx0
  have hb : binade (r * 8) ≤ 2 :=
    binade_le _ 2 hx0 (by norm_num; linarith) (by norm_num) (Or.inl (by norm_num))
  have hy8 : roundBinary64 (r * 8) ≤ 2 ^ (3 : ℤ) :=
    roundBinary64_le_zpow _ 3 hx0 (by norm_num; linarith) (by omega)
  have h8 : (2 : ℚ) ^ (3 : ℤ) = 8 := by norm_num
  have h16 : (2 : ℚ) ^ (4 : ℤ) = 16 := by norm_num
  rw [h8] at hy8
  have hz0 : (0 : ℚ) ≤ 8 + roundBinary64 (r * 8) := by linarith
  have hbz : binade (8 + roundBinary64 (r * 8)) ≤ 4 :=
    binade_le _ 4 hz0 (by norm_num; linarith) (by norm_num) (Or.inl (by norm_num))
  have hlo := zpow_le_roundBinary64 (8 + roundBinary64 (r * 8)) 3
    (by rw [h8]; linarith) (by omega)
  have hhi := roundBinary64_le_zpow (8 + roundBinary64 (r * 8)) 4 hz0
    (by rw [h16]; linarith) (by omega)
  rw [h8] at hlo
  rw [h16] at hhi
  exact ⟨hlo, hhi⟩

theorem edgeDraw_binary64 : roundBinary64 edgeDraw = edgeDraw := by
  have hp : (2 : ℚ) ^ ((-1 : ℤ) - 52) = 1 / 2 ^ 53 := by
    rw [show ((-1 : ℤ) - 52) = -(53 : ℕ) by norm_num, zpow_neg, zpow_natCast]
    norm_num
  rw [roundBinary64_of_binade edgeDraw (-1) (by norm_num [edgeDraw])
    (by norm_num [edgeDraw]) (by norm_num), hp]
  have hn : edgeDraw / (1 / 2 ^ 53) = ((2 ^ 53 - 1 : ℤ) : ℚ) := by
    norm_num [edgeDraw]
  rw [hn, roundHalfEven_int]
  norm_num [edgeDraw]

theorem edgeDraw_times8 : roundBinary64 (edgeDraw * 8) = 8 - 1 / 2 ^ 50 := by
  have hp : (2 : ℚ) ^ ((2 : ℤ) - 52) = 1 / 2 ^ 50 := by
    rw [show ((2 : ℤ) - 52) = -(50 : ℕ) by norm_num, zpow_neg, zpow_natCast]
    norm_num
  rw [roundBinary64_of_binade (edgeDraw * 8) 2 (by norm_num [edgeDraw])
    (by norm_num [edgeDraw]) (by norm_num), hp]
  have hn : edgeDraw * 8 / (1 / 2 ^ 50) = ((2 ^ 53 - 1 : ℤ) : ℚ) := by
    norm_num [edgeDraw]
  rw [hn, roundHalfEven_int]
  norm_num

theorem edgeDraw_duration : roundBinary64 (8 + roundBinary64 (edgeDraw * 8)) = 16 := by
  have hp : (2 : ℚ) ^ ((3 : ℤ) - 52) = 1 / 2 ^ 49 := by
    rw [show ((3 : ℤ) - 52) = -(49 : ℕ) by norm_num, zpow_neg, zpow_natCast]
    norm_num
  rw [edgeDraw_times8, roundBinary64_of_binade _ 3 (by norm_num) (by norm_num)
    (by norm_num), hp]
  have hn : (8 + (8 - 1 / 2 ^ 50) : ℚ) / (1 / 2 ^ 49) = 18014398509481983 / 2 := by
    norm_num
  have hf : ⌊(18014398509481983 / 2 : ℚ)⌋ = 9007199254740991 := by
    rw [Int.floor_eq_iff]
    norm_num
  have hr : roundHalfEven (18014398509481983 / 2) = 9007199254740992 := by
    unfold roundHalfEven
    simp only [hf]
    norm_num
  rw [hn, hr]
  norm_num

theorem half_binary64 : roundBinary64 (1 / 2) = 1 / 2 := by
  have hp : (2 : ℚ) ^ ((-1 : ℤ) - 52) = 1 / 2 ^ 53 := by
    rw [show ((-1 : ℤ) - 52) = -(53 : ℕ) by norm_num, zpow_neg, zpow_natCast]
    norm_num
  rw [roundBinary64_of_binade (1 / 2) (-1) (by norm_num) (by norm_num)
    (by norm_num), hp]
  have hn : (1 / 2 : ℚ) / (1 / 2 ^ 53) = ((2 ^ 52 : ℤ) : ℚ) := by norm_num
  rw [hn, roundHalfEven_int]
  norm_num

/-! ## Lemmas on the primitives -/

theorem modifyAt_length {α : Type} (f : α → α) (n : Nat) (l : List α) :
    (modifyAt f n l).length = l.length := by
  induction l generalizing n with
  | nil => cases n <;> rfl
  | cons x xs ih => cases n <;> simp [modifyAt, ih]

theorem modifyAt_getElem? {α : Type} (f : α → α) (n m : Nat) (l : List α) :
    (modifyAt f n l)[m]? = if m = n then (l[m]?).map f else l[m]? := by
  induction l generalizing n m with
  | nil => cases n <;> simp [modifyAt]
  | cons x xs ih =>
    cases n with
    | zero => cases m <;> simp [modifyAt]
    | succ n => cases m <;> simp [modifyAt, ih]

theorem modifyAt_append_left {α : Type} (f : α → α) (n : Nat) (l r : List α)
    (h : n < l.length) : modifyAt f n (l ++ r) = modifyAt f n l ++ r := by
  induction l generalizing n with
  | nil => simp at h
  | cons x xs ih =>
    cases n with
    | zero => simp [modifyAt]
    | succ n =>
      have h2 : n < xs.length := by simpa using h
      simp [modifyAt, ih n h2]

theorem modifyAt_append_right {α : Type} (f : α → α) (l : List α) (x : α)
    (r : List α) :
    modifyAt f l.length (l ++ x :: r) = l ++ f x :: r := by
  induction l with
  | nil => simp [modifyAt]
  | cons y ys ih => simp [modifyAt, ih]

theorem modifyAt_modifyAt {α : Type} (f g : α → α) (n : Nat) (l : List α) :
    modifyAt g n (modifyAt f n l) = modifyAt (fun a => g (f a)) n l := by
  induction l generalizing n with
  | nil => cases n <;> rfl
  | cons x xs ih => cases n <;> simp [modifyAt, ih]

theorem getDecl_setDecl_same (name : String) (v : CssValue)
    (s : List (String × CssValue)) : getDecl name (setDecl name v s) = some v := by
  induction s with
  | nil => simp [setDecl, getDecl]
  | cons kv rest ih =>
    obtain ⟨k, u⟩ := kv
    by_cases h : k = name
    · simp [setDecl, getDecl, h]
    · simp [setDecl, getDecl, h, ih]

theorem getDecl_setDecl_other (name other : String) (v : CssValue)
    (s : List (String × CssValue)) (hne : other ≠ name) :
    getDecl other (setDecl name v s) = getDecl other s := by
  induction s with
  | nil =>
    have h : ¬ name = other := fun h => hne h.symm
    simp [setDecl, getDecl, h]
  | cons kv rest ih =>
    obtain ⟨k, u⟩ := kv
    by_cases h : k = name
    · have h2 : ¬ name = other := fun h => hne h.symm
      simp [setDecl, getDecl, h, h2]
    · by_cases h3 : k = other
      · subst h3
        simp [setDecl, getDecl, h]
      · simp [setDecl, getDecl, h, h3, ih]

theorem setDecl_of_getDecl (name : String) (v : CssValue)
    (s : List (String × CssValue)) (h : getDecl name s = some v) :
    setDecl name v s = s := by
  induction s with
  | nil => simp [getDecl] at h
  | cons kv rest ih =>
    obtain ⟨k, u⟩ := kv
    by_cases hk : k = name
    · simp [getDecl, hk] at h
      simp [setDecl, hk, h]
    · simp [getDecl, hk] at h
      simp [setDecl, hk, ih h]

/-! ## The particle loop in closed form -/

theorem particleStep_eq (host : Host) (bg : Nat) (w : World) :
    particleStep host bg w =
      { w with
        nodes := modifyAt (addChildren [w.nodes.length]) bg
          (w.nodes ++ [particleAt host w.draws])
        draws := w.draws + 4 } := by
  simp [particleStep, createElement, classListAdd, mathRandom, setProperty,
    appendChild, modifyAt_append_right, setDecl, particleAt, addChildren]
  rfl

theorem particleLoop_eq (host : Host) (bg k : Nat) (w : World)
    (hbg : bg < w.nodes.length) :
    particleLoop host bg k w =
      { w with
        nodes := modifyAt (addChildren (List.range' w.nodes.length k)) bg w.nodes
          ++ (List.range k).map (fun j => particleAt host (w.draws + 4 * j))
        draws := w.draws + 4 * k } := by
  induction k generalizing w with
  | zero =>
    have h : modifyAt (addChildren []) bg w.nodes = w.nodes := by
      clear hbg
      generalize w.nodes = l
      induction l generalizing bg with
      | nil => cases bg <;> rfl
      | cons x xs ih => cases bg <;> simp [modifyAt, ih, addChildren]
    simp [particleLoop, h]
  | succ k ih =>
    have hlen : bg < (particleStep host bg w).nodes.length := by
      rw [particleStep_eq]
      simp [modifyAt_length]
      omega
    rw [particleLoop, ih _ hlen, particleStep_eq]
    simp only [modifyAt_length, List.length_append, List.length_singleton]
    rw [modifyAt_append_left _ _ _ _ hbg, modifyAt_append_left _ _ _ _
      (by rw [modifyAt_length]; exact hbg), modifyAt_modifyAt]
    have hr : (List.range (k + 1)).map
          (fun j => particleAt host (w.draws + 4 * j)) =
        particleAt host w.draws ::
          (List.range k).map (fun j => particleAt host (w.draws + 4 + 4 * j)) := by
      rw [List.range_succ_eq_map]
      simp only [List.map_cons, List.map_map]
      congr 1
      apply List.map_congr_left
      intro j _
      simp only [Function.comp]
      congr 1
      omega
    rw [hr]
    have hc : (fun a => addChildren (List.range' (w.nodes.length + 1) k)
          (addChildren [w.nodes.length] a)) =
        addChildren (List.range' w.nodes.length (k + 1)) := by
      funext a
      simp [addChildren, List.range'_succ]
    rw [hc]
    simp [Nat.mul_succ, Nat.add_assoc]
    omega

theorem particleBackground_eq (host : Host) (w : World)
    (hb : w.body < w.nodes.length) :
    particleBackground host w =
      { w with
        nodes := modifyAt (addChildren [w.nodes.length]) w.body w.nodes
          ++ containerAt w.nodes.length ::
            (List.range numParticles).map
              (fun j => particleAt host (w.draws + 4 * j))
        draws := w.draws + 4 * numParticles } := by
  have h1 : appendChild (setId (createElement w "div").2
      (createElement w "div").1 "particle-bg") w.body w.nodes.length =
      { w with nodes := modifyAt (addChildren [w.nodes.length]) w.body w.nodes ++
        [⟨"div", "particle-bg", [], [], [], []⟩] } := by
    simp only [appendChild, setId, createElement]
    rw [modifyAt_append_right, modifyAt_append_left _ _ _ _ hb]
    rfl
  have h2 : particleBackground host w = particleLoop host w.nodes.length
      numParticles (appendChild (setId (createElement w "div").2
        (createElement w "div").1 "particle-bg") w.body w.nodes.length) := rfl
  rw [h2, h1, particleLoop_eq _ _ _ _ (by simp [modifyAt_length])]
  simp only [List.length_append, modifyAt_length, List.length_singleton]
  have h3 : modifyAt (addChildren (List.range' (w.nodes.length + 1) numParticles))
      w.nodes.length (modifyAt (addChildren [w.nodes.length]) w.body w.nodes ++
        [⟨"div", "particle-bg", [], [], [], []⟩]) =
      modifyAt (addChildren [w.nodes.length]) w.body w.nodes ++
        [containerAt w.nodes.length] := by
    have hl := modifyAt_append_right
      (addChildren (List.range' (w.nodes.length + 1) numParticles))
      (modifyAt (addChildren [w.nodes.length]) w.body w.nodes)
      ⟨"div", "particle-bg", [], [], [], []⟩ []
    rw [modifyAt_length] at hl
    rw [hl]
    simp [addChildren, containerAt]
  rw [h3]
  simp

/-! ## What one run of the page-load handler leaves in the store -/

theorem particleBackground_length (host : Host) (w : World)
    (hb : w.body < w.nodes.length) :
    (particleBackground host w).nodes.length = w.nodes.length + 1 + numParticles := by
  rw [particleBackground_eq host w hb]
  simp [modifyAt_length]
  omega

theorem particleBackground_old (host : Host) (w : World)
    (hb : w.body < w.nodes.length) (n : Nat) (hn : n < w.nodes.length) :
    (particleBackground host w).node? n =
      if n = w.body then (w.node? n).map (addChildren [w.nodes.length])
      else w.node? n := by
  rw [particleBackground_eq host w hb]
  simp only [World.node?]
  rw [List.getElem?_append_left (by rw [modifyAt_length]; exact hn),
    modifyAt_getElem?]

theorem particleBackground_container (host : Host) (w : World)
    (hb : w.body < w.nodes.length) :
    (particleBackground host w).node? w.nodes.length =
      some (containerAt w.nodes.length) := by
  rw [particleBackground_eq host w hb]
  simp only [World.node?]
  rw [List.getElem?_append_right (by rw [modifyAt_length])]
  simp [modifyAt_length]

theorem particleBackground_particle (host : Host) (w : World)
    (hb : w.body < w.nodes.length) (j : Nat) (hj : j < numParticles) :
    (particleBackground host w).node? (w.nodes.length + 1 + j) =
      some (particleAt host (w.draws + 4 * j)) := by
  rw [particleBackground_eq host w hb]
  simp only [World.node?]
  rw [List.getElem?_append_right (by rw [modifyAt_length]; omega)]
  have h : w.nodes.length + 1 + j -
      (modifyAt (addChildren [w.nodes.length]) w.body w.nodes).length = j + 1 := by
    rw [modifyAt_length]
    omega
  rw [h]
  simp [List.getElem?_range hj]

theorem mem_range'_numParticles (l p : Nat)
    (hp : p ∈ List.range' (l + 1) numParticles) :
    ∃ j, j < numParticles ∧ p = l + 1 + j := by
  rw [List.mem_range'] at hp
  obtain ⟨i, hi, hpi⟩ := hp
  exact ⟨i, hi, by omega⟩

/-! ## The page-load handler and the click handler -/

/-- C2. After one run of the page-load handler on a document with a body,
whatever the random source returns, the element created first (at the first
free position of the store) is a `div` with id `particle-bg`, it is the last
child of `document.body`, and it has exactly 60 children, each a `div`
carrying the class `particle`. -/
theorem particleBackground_container_has_60_particles (host : Host) (w : World)
    (hb : w.body < w.nodes.length) :
    let w1 := particleBackground host w
    let bg := w.nodes.length
    (∃ el, w1.node? bg = some el ∧ el.localName = "div" ∧ el.id = "particle-bg") ∧
    childrenOf w1 w1.body = childrenOf w w.body ++ [bg] ∧
    (childrenOf w1 bg).length = 60 ∧
    (childrenOf w1 bg).Nodup ∧
    ∀ p ∈ childrenOf w1 bg, isParticle w1 p = true := by
  intro w1 bg
  have hc : w1.node? bg = some (containerAt bg) :=
    particleBackground_container host w hb
  have hch : childrenOf w1 bg = List.range' (bg + 1) numParticles := by
    simp [childrenOf, hc, containerAt]
  have hbody : w1.body = w.body := by
    show (particleBackground host w).body = w.body
    rw [particleBackground_eq host w hb]
  refine ⟨⟨containerAt bg, hc, rfl, rfl⟩, ?_, ?_, ?_, ?_⟩
  · have h := particleBackground_old host w hb w.body hb
    rw [hbody]
    show childrenOf (particleBackground host w) w.body = _
    unfold childrenOf
    rw [h]
    simp only [if_true]
    cases hw : w.node? w.body with
    | none =>
      simp only [World.node?] at hw
      rw [List.getElem?_eq_none_iff] at hw
      omega
    | some e => simp [addChildren]
  · rw [hch]
    simp [numParticles]
  · rw [hch]
    exact List.nodup_range' _ _
  · intro p hp
    rw [hch] at hp
    obtain ⟨j, hj, rfl⟩ := mem_range'_numParticles bg p hp
    have h := particleBackground_particle host w hb j hj
    show isParticle (particleBackground host w) (w.nodes.length + 1 + j) = true
    unfold isParticle
    rw [h]
    simp [particleAt]

theorem particleBackground_container_has_60_particles_witness :
    samplePage.body < samplePage.nodes.length ∧
    (childrenOf (particleBackground sampleHost samplePage) 5).length = 60 :=
  ⟨by decide,
    (particleBackground_container_has_60_particles sampleHost samplePage
      (by decide)).2.2.1⟩

/-- C3, as amended. Every particle created by the page-load handler is the
`j`-th child of the container for some `j < 60` and takes four consecutive
draws of the random source, numbers `d` to `d + 3` with `d = w.draws + 4 * j`.
With binary64 arithmetic, `left` is draw `d` times 100 with unit `%`, `bottom`
is draw `d + 1` times 100 with unit `px`, `animationDuration` is 8 plus draw
`d + 2` times 8 with unit `s`, and `animationDelay` is draw `d + 3` times 10
with unit `s`. When every draw is a binary64 number in `[0, 1)` the numbers
lie in `[0, 100)`, `[0, 100)`, `[8, 16]` and `[0, 10)`. -/
theorem particle_style_ranges_binary64 (host : Host) (w : World)
    (hb : w.body < w.nodes.length)
    (hr : ∀ k, 0 ≤ host.random k ∧ host.random k < 1 ∧
      roundBinary64 (host.random k) = host.random k) :
    ∀ p ∈ childrenOf (particleBackground host w) w.nodes.length,
      ∃ j d, j < 60 ∧ p = w.nodes.length + 1 + j ∧ d = w.draws + 4 * j ∧
        ∃ left bottom duration delay : ℚ,
          left = roundBinary64 (host.random d * 100) ∧
          bottom = roundBinary64 (host.random (d + 1) * 100) ∧
          duration = roundBinary64 (8 + roundBinary64 (host.random (d + 2) * 8)) ∧
          delay = roundBinary64 (host.random (d + 3) * 10) ∧
          getPropertyValue (particleBackground host w) p "left" =
            some ⟨left, "%"⟩ ∧
          (0 ≤ left ∧ left < 100) ∧
          getPropertyValue (particleBackground host w) p "bottom" =
            some ⟨bottom, "px"⟩ ∧
          (0 ≤ bottom ∧ bottom < 100) ∧
          getPropertyValue (particleBackground host w) p "animationDuration" =
            some ⟨duration, "s"⟩ ∧
          (8 ≤ duration ∧ duration ≤ 16) ∧
          getPropertyValue (particleBackground host w) p "animationDelay" =
            some ⟨delay, "s"⟩ ∧
          (0 ≤ delay ∧ delay < 10) := by
  intro p hp
  have hc := particleBackground_container host w hb
  have hch : childrenOf (particleBackground host w) w.nodes.length =
      List.range' (w.nodes.length + 1) numParticles := by
    simp [childrenOf, hc, containerAt]
  rw [hch] at hp
  obtain ⟨j, hj, rfl⟩ := mem_range'_numParticles _ p hp
  have h := particleBackground_particle host w hb j hj
  obtain ⟨h0a, h0b, h0c⟩ := hr (w.draws + 4 * j)
  obtain ⟨h1a, h1b, h1c⟩ := hr (w.draws + 4 * j + 1)
  obtain ⟨h2a, h2b, _⟩ := hr (w.draws + 4 * j + 2)
  obtain ⟨h3a, h3b, h3c⟩ := hr (w.draws + 4 * j + 3)
  refine ⟨j, w.draws + 4 * j, hj, rfl, rfl, _, _, _, _, rfl, rfl, rfl, rfl, ?_,
    times100_range _ h0a h0b h0c, ?_, times100_range _ h1a h1b h1c, ?_,
    duration_range _ h2a h2b, ?_, times10_range _ h3a h3b h3c⟩ <;>
  simp [getPropertyValue, h, particleAt, getDecl]

theorem particle_style_ranges_binary64_witness :
    samplePage.body < samplePage.nodes.length ∧
    (∀ k, 0 ≤ sampleHost.random k ∧ sampleHost.random k < 1 ∧
      roundBinary64 (sampleHost.random k) = sampleHost.random k) ∧
    ∀ p ∈ childrenOf (particleBackground sampleHost samplePage)
        samplePage.nodes.length,
      ∃ j d, j < 60 ∧ p = samplePage.nodes.length + 1 + j ∧
        d = samplePage.draws + 4 * j ∧
        ∃ left bottom duration delay : ℚ,
          left = roundBinary64 (sampleHost.random d * 100) ∧
          bottom = roundBinary64 (sampleHost.random (d + 1) * 100) ∧
          duration =
            roundBinary64 (8 + roundBinary64 (sampleHost.random (d + 2) * 8)) ∧
          delay = roundBinary64 (sampleHost.random (d + 3) * 10) ∧
          getPropertyValue (particleBackground sampleHost samplePage) p "left" =
            some ⟨left, "%"⟩ ∧
          (0 ≤ left ∧ left < 100) ∧
          getPropertyValue (particleBackground sampleHost samplePage) p "bottom" =
            some ⟨bottom, "px"⟩ ∧
          (0 ≤ bottom ∧ bottom < 100) ∧
          getPropertyValue (particleBackground sampleHost samplePage) p
              "animationDuration" = some ⟨duration, "s"⟩ ∧
          (8 ≤ duration ∧ duration ≤ 16) ∧
          getPropertyValue (particleBackground sampleHost samplePage) p
              "animationDelay" = some ⟨delay, "s"⟩ ∧
          (0 ≤ delay ∧ delay < 10) :=
  have hr : ∀ k, 0 ≤ sampleHost.random k ∧ sampleHost.random k < 1 ∧
      roundBinary64 (sampleHost.random k) = sampleHost.random k := by
    intro k
    simp only [sampleHost]
    exact ⟨by norm_num, by norm_num, half_binary64⟩
  ⟨by decide, hr,
    particle_style_ranges_binary64 sampleHost samplePage (by decide) hr⟩

/-- C3, the claim as written fails. With the random source returning
`1 - 2⁻⁵³`, a binary64 number in `[0, 1)`, at every draw, the first particle
the handler creates on the sample page (element 6, a child of the container)
gets the `animationDuration` 16 with unit `s`: the sum `8 + (8 - 2⁻⁵⁰)` is a
tie between `16 - 2⁻⁴⁹` and 16 and rounds to 16, outside `[8, 16)`. -/
theorem particle_duration_reaches_16 :
    (∀ k, 0 ≤ edgeHost.random k ∧ edgeHost.random k < 1 ∧
      roundBinary64 (edgeHost.random k) = edgeHost.random k) ∧
    ∃ p ∈ childrenOf (particleBackground edgeHost samplePage)
        samplePage.nodes.length,
      ∃ v, getPropertyValue (particleBackground edgeHost samplePage) p
          "animationDuration" = some v ∧ v.unit = "s" ∧ v.num = 16 ∧
        ¬ (8 ≤ v.num ∧ v.num < 16) := by
  have hb : samplePage.body < samplePage.nodes.length := by decide
  refine ⟨?_, 6, ?_, ⟨16, "s"⟩, ?_, rfl, rfl, by norm_num⟩
  · intro k
    simp only [edgeHost]
    exact ⟨by norm_num [edgeDraw], by norm_num [edgeDraw], edgeDraw_binary64⟩
  · have hch : childrenOf (particleBackground edgeHost samplePage)
        samplePage.nodes.length =
        List.range' (samplePage.nodes.length + 1) numParticles := by
      simp [childrenOf, particleBackground_container edgeHost samplePage hb,
        containerAt]
    rw [hch]
    decide
  · have h := particleBackground_particle edgeHost samplePage hb 0 (by decide)
    have h6 : samplePage.nodes.length + 1 + 0 = 6 := by decide
    rw [h6] at h
    have hd : roundBinary64 (8 + roundBinary64 (edgeHost.random
        (samplePage.draws + 4 * 0 + 2) * 8)) = 16 := edgeDraw_duration
    simp [getPropertyValue, h, particleAt, getDecl, hd]

/-- C1 (the code at the failing input). On the sample page, element 3 is a
link to `#missing` and no element has that id, so the lookup yields `null`;
the click handler calls `preventDefault` and then ends with a `TypeError`
instead of returning. -/
theorem smoothScroll_missing_target_throws :
    getAttribute samplePage 3 "href" = some "#missing" ∧
    sampleHost.querySelector samplePage.nodes "#missing" = .ok none ∧
    smoothScroll sampleHost samplePage 3 =
      ⟨samplePage, [Call.preventDefault], some JsError.typeError⟩ := by
  refine ⟨rfl, rfl, rfl⟩

/-- Whenever the lookup yields `null`, the click handler ends with a
`TypeError` after `preventDefault`, requests no scroll and leaves the page as
it was. -/
theorem smoothScroll_null_lookup (host : Host) (w : World) (this : Nat)
    (h : host.querySelector w.nodes ((getAttribute w this "href").getD "null") =
      .ok none) :
    smoothScroll host w this =
      ⟨w, [Call.preventDefault], some JsError.typeError⟩ := by
  simp [smoothScroll, h]

/-- C4. When the `href` of the element the click handler runs on selects an
element `t`, the run makes exactly two calls, in this order: `preventDefault`
on the event, then `scrollIntoView` on `t` with behavior `smooth`. It ends
without an exception and the page is as it was. -/
theorem smoothScroll_existing_target (host : Host) (w : World) (this t : Nat)
    (href : String)
    (hhref : getAttribute w this "href" = some href)
    (ht : host.querySelector w.nodes href = .ok (some t)) :
    smoothScroll host w this =
      ⟨w, [Call.preventDefault, Call.scrollIntoView t "smooth"], none⟩ := by
  simp [smoothScroll, hhref, ht]

theorem smoothScroll_existing_target_witness :
    getAttribute samplePage 2 "href" = some "#map" ∧
    sampleHost.querySelector samplePage.nodes "#map" = .ok (some 1) ∧
    smoothScroll sampleHost samplePage 2 =
      ⟨samplePage, [Call.preventDefault, Call.scrollIntoView 1 "smooth"], none⟩ :=
  ⟨rfl, rfl, smoothScroll_existing_target sampleHost samplePage 2 1 "#map" rfl rfl⟩

/-! ## The glow handler -/

theorem buttonGlow_eq (host : Host) (btn : Nat) (e : MouseEvent) (w : World) :
    buttonGlow host btn e w =
      { w with nodes :=
        modifyAt (glowElement (glowX host btn e) (glowY host btn e)) btn w.nodes } := by
  simp only [buttonGlow, setProperty, modifyAt_modifyAt]
  rfl

theorem setDecl_setDecl_same (name : String) (v1 v2 : CssValue)
    (s : List (String × CssValue)) :
    setDecl name v2 (setDecl name v1 s) = setDecl name v2 s := by
  induction s with
  | nil => simp [setDecl]
  | cons kv rest ih =>
    obtain ⟨k, u⟩ := kv
    by_cases h : k = name
    · simp [setDecl, h]
    · simp [setDecl, h, ih]

theorem setDecl_comm (k1 k2 : String) (a b u : CssValue)
    (s : List (String × CssValue)) (hne : k1 ≠ k2)
    (hin : getDecl k1 s = some u) :
    setDecl k1 a (setDecl k2 b s) = setDecl k2 b (setDecl k1 a s) := by
  induction s with
  | nil => simp [getDecl] at hin
  | cons kv rest ih =>
    obtain ⟨k, c⟩ := kv
    by_cases h1 : k = k1
    · subst h1
      simp [setDecl, hne]
    · by_cases h2 : k = k2
      · subst h2
        simp [setDecl, h1]
      · simp only [getDecl, h1, if_false] at hin
        simp [setDecl, h1, h2, ih hin]

theorem glowElement_glowElement (x1 y1 x2 y2 : CssValue) (el : Element) :
    glowElement x2 y2 (glowElement x1 y1 el) = glowElement x2 y2 el := by
  have hx : getDecl "--x" (setDecl "--x" x1 el.style) = some x1 :=
    getDecl_setDecl_same _ _ _
  have h : setDecl "--x" x2 (setDecl "--y" y1 (setDecl "--x" x1 el.style)) =
      setDecl "--y" y1 (setDecl "--x" x2 el.style) := by
    rw [setDecl_comm "--x" "--y" x2 y1 x1 _ (by decide) hx, setDecl_setDecl_same]
  simp only [glowElement]
  rw [h, setDecl_setDecl_same]

theorem buttonGlow_buttonGlow (host : Host) (btn : Nat) (e1 e2 : MouseEvent)
    (w : World) :
    buttonGlow host btn e2 (buttonGlow host btn e1 w) = buttonGlow host btn e2 w := by
  simp only [buttonGlow_eq, modifyAt_modifyAt, glowElement_glowElement]

theorem buttonGlow_value (host : Host) (btn : Nat) (e : MouseEvent) (w : World)
    (hb : btn < w.nodes.length) :
    getPropertyValue (buttonGlow host btn e w) btn "--x" = some (glowX host btn e) ∧
    getPropertyValue (buttonGlow host btn e w) btn "--y" = some (glowY host btn e) := by
  have hy : ("--x" : String) ≠ "--y" := by decide
  obtain ⟨el, hel⟩ : ∃ el, w.nodes[btn]? = some el :=
    ⟨w.nodes[btn], List.getElem?_eq_getElem hb⟩
  simp [buttonGlow_eq, getPropertyValue, World.node?, modifyAt_getElem?, hel,
    glowElement, getDecl_setDecl_same, getDecl_setDecl_other _ _ _ _ hy]

/-- C5. After the `mousemove` handler of an existing element `btn` has run on
an event at `(clientX, clientY)`, with `(left, top)` the corner of the
bounding rectangle of `btn`, the custom property `--x` of `btn` is
`clientX - left` with unit `px` and `--y` is `clientY - top` with unit `px`. -/
theorem buttonGlow_publishes_offset (host : Host) (btn : Nat) (e : MouseEvent)
    (w : World) (hb : btn < w.nodes.length) :
    getPropertyValue (buttonGlow host btn e w) btn "--x" =
      some ⟨e.clientX - (host.getBoundingClientRect btn).left, "px"⟩ ∧
    getPropertyValue (buttonGlow host btn e w) btn "--y" =
      some ⟨e.clientY - (host.getBoundingClientRect btn).top, "px"⟩ :=
  buttonGlow_value host btn e w hb

theorem buttonGlow_publishes_offset_witness :
    (4 : Nat) < samplePage.nodes.length ∧
    getPropertyValue (buttonGlow sampleHost 4 ⟨25, 50⟩ samplePage) 4 "--x" =
      some ⟨15, "px"⟩ ∧
    getPropertyValue (buttonGlow sampleHost 4 ⟨25, 50⟩ samplePage) 4 "--y" =
      some ⟨30, "px"⟩ := by
  have h := buttonGlow_publishes_offset sampleHost 4 ⟨25, 50⟩ samplePage (by decide)
  have hx : (25 : ℚ) - (sampleHost.getBoundingClientRect 4).left = 15 := by
    simp only [sampleHost]
    norm_num
  have hy : (50 : ℚ) - (sampleHost.getBoundingClientRect 4).top = 30 := by
    simp only [sampleHost]
    norm_num
  simp only [hx, hy] at h
  exact ⟨by decide, h⟩

/-- C8. The `mousemove` handler keeps no state. From any two pages in which
`btn` exists, handling the same event against the same bounding rectangle
gives the same `--x` and the same `--y`; handling an event a second time
changes nothing; and handling a sequence of events and then `e` leaves the
page exactly as handling `e` alone does. -/
theorem buttonGlow_stateless (host : Host) (btn : Nat) (e : MouseEvent)
    (w1 w2 : World) (es : List MouseEvent)
    (h1 : btn < w1.nodes.length) (h2 : btn < w2.nodes.length) :
    (getPropertyValue (buttonGlow host btn e w1) btn "--x" =
        getPropertyValue (buttonGlow host btn e w2) btn "--x" ∧
      getPropertyValue (buttonGlow host btn e w1) btn "--y" =
        getPropertyValue (buttonGlow host btn e w2) btn "--y") ∧
    buttonGlow host btn e (buttonGlow host btn e w1) = buttonGlow host btn e w1 ∧
    buttonGlow host btn e (es.foldl (fun w e1 => buttonGlow host btn e1 w) w1) =
      buttonGlow host btn e w1 := by
  refine ⟨⟨?_, ?_⟩, buttonGlow_buttonGlow host btn e e w1, ?_⟩
  · rw [(buttonGlow_value host btn e w1 h1).1, (buttonGlow_value host btn e w2 h2).1]
  · rw [(buttonGlow_value host btn e w1 h1).2, (buttonGlow_value host btn e w2 h2).2]
  · clear h1 h2
    induction es generalizing w1 with
    | nil => rfl
    | cons e1 rest ih =>
      rw [List.foldl_cons, ih, buttonGlow_buttonGlow]

theorem buttonGlow_stateless_witness :
    (4 : Nat) < samplePage.nodes.length ∧
    (4 : Nat) < (particleBackground sampleHost samplePage).nodes.length ∧
    getPropertyValue (buttonGlow sampleHost 4 ⟨25, 50⟩ samplePage) 4 "--x" =
      getPropertyValue (buttonGlow sampleHost 4 ⟨25, 50⟩
        (particleBackground sampleHost samplePage)) 4 "--x" ∧
    buttonGlow sampleHost 4 ⟨25, 50⟩
        ([⟨1, 2⟩, ⟨3, 4⟩].foldl (fun w e1 => buttonGlow sampleHost 4 e1 w) samplePage) =
      buttonGlow sampleHost 4 ⟨25, 50⟩ samplePage :=
  have hl : (4 : Nat) < (particleBackground sampleHost samplePage).nodes.length := by
    rw [particleBackground_length sampleHost samplePage (by decide)]
    decide
  have h := buttonGlow_stateless sampleHost 4 ⟨25, 50⟩ samplePage
    (particleBackground sampleHost samplePage) [⟨1, 2⟩, ⟨3, 4⟩] (by decide) hl
  ⟨by decide, hl, h.1.1, h.2.2⟩

/-! ## Frame of the handlers -/

theorem particleLoop_listeners (host : Host) (bg k : Nat) (w : World) :
    (particleLoop host bg k w).listeners = w.listeners := by
  induction k generalizing w with
  | zero => rfl
  | succ k ih => rw [particleLoop, ih, particleStep_eq]

theorem particleBackground_listeners (host : Host) (w : World) :
    (particleBackground host w).listeners = w.listeners := by
  unfold particleBackground
  simp only []
  rw [particleLoop_listeners]
  rfl

/-- C9. A `mousemove` handled on `btn` leaves the body position, the
listeners and the draw count as they were, keeps every element other than
`btn` as it was, and on `btn` keeps the tag, id, classes, attributes, children
and every style property other than `--x` and `--y`. A run of the page-load
handler on a document with a body leaves the listeners as they were and keeps
on every existing element its tag, id, classes, attributes and style; an
existing element other than `document.body`, which receives the container as
a new last child, is kept whole. -/
theorem handlers_frame (host : Host) (btn : Nat) (e : MouseEvent) (w : World)
    (hb : w.body < w.nodes.length) :
    ((buttonGlow host btn e w).body = w.body ∧
      (buttonGlow host btn e w).listeners = w.listeners ∧
      (buttonGlow host btn e w).draws = w.draws ∧
      (buttonGlow host btn e w).nodes.length = w.nodes.length ∧
      (∀ n, n ≠ btn → (buttonGlow host btn e w).node? n = w.node? n) ∧
      (∀ el, w.node? btn = some el →
        ∃ el1, (buttonGlow host btn e w).node? btn = some el1 ∧
          el1.localName = el.localName ∧ el1.id = el.id ∧
          el1.classList = el.classList ∧ el1.attributes = el.attributes ∧
          el1.children = el.children ∧
          ∀ name, name ≠ "--x" → name ≠ "--y" →
            getDecl name el1.style = getDecl name el.style)) ∧
    ((particleBackground host w).body = w.body ∧
      (particleBackground host w).listeners = w.listeners ∧
      (∀ n el, w.node? n = some el →
        ∃ el1, (particleBackground host w).node? n = some el1 ∧
          el1.localName = el.localName ∧ el1.id = el.id ∧
          el1.classList = el.classList ∧ el1.attributes = el.attributes ∧
          el1.style = el.style ∧
          (n ≠ w.body → el1 = el))) := by
  refine ⟨⟨?_, ?_, ?_, ?_, ?_, ?_⟩, ?_, particleBackground_listeners host w, ?_⟩
  · rw [buttonGlow_eq]
  · rw [buttonGlow_eq]
  · rw [buttonGlow_eq]
  · rw [buttonGlow_eq]
    simp [modifyAt_length]
  · intro n hn
    rw [buttonGlow_eq]
    simp [World.node?, modifyAt_getElem?, hn]
  · intro el hel
    refine ⟨glowElement (glowX host btn e) (glowY host btn e) el, ?_, rfl, rfl,
      rfl, rfl, rfl, ?_⟩
    · rw [buttonGlow_eq]
      simp only [World.node?] at hel
      simp [World.node?, modifyAt_getElem?, hel]
    · intro name hx hy
      simp only [glowElement]
      rw [getDecl_setDecl_other _ _ _ _ hy, getDecl_setDecl_other _ _ _ _ hx]
  · rw [particleBackground_eq host w hb]
  · intro n el hel
    have hn : n < w.nodes.length := by
      simp only [World.node?] at hel
      exact (List.getElem?_eq_some_iff.mp hel).1
    have h := particleBackground_old host w hb n hn
    by_cases hnb : n = w.body
    · refine ⟨addChildren [w.nodes.length] el, ?_, rfl, rfl, rfl, rfl, rfl, ?_⟩
      · rw [h, if_pos hnb, hel]
        rfl
      · intro hne
        exact absurd hnb hne
    · refine ⟨el, ?_, rfl, rfl, rfl, rfl, rfl, fun _ => rfl⟩
      rw [h, if_neg hnb, hel]

theorem handlers_frame_witness :
    samplePage.body < samplePage.nodes.length ∧
    (buttonGlow sampleHost 4 ⟨25, 50⟩ samplePage).node? 2 = samplePage.node? 2 ∧
    (particleBackground sampleHost samplePage).listeners = samplePage.listeners :=
  have h := handlers_frame sampleHost 4 ⟨25, 50⟩ samplePage (by decide)
  ⟨by decide, h.1.2.2.2.2.1 2 (by decide), h.2.2.1⟩

/-! ## The registrations -/

theorem foldl_addEventListener (ty : String) (h : Nat → Handler) (l : List Nat)
    (w : World) :
    l.foldl (fun w a => addEventListener w (EventTarget.node a) ty (h a)) w =
      { w with listeners :=
        w.listeners ++ l.map (fun a => ⟨EventTarget.node a, ty, h a⟩) } := by
  induction l generalizing w with
  | nil => simp
  | cons a rest ih =>
    rw [List.foldl_cons, ih]
    simp [addEventListener]

theorem setup_eq (w : World) :
    setup w =
      { w with listeners :=
        w.listeners ++ loadListener ::
          ((querySelectorAll isFragmentAnchor w).map clickListener ++
            (querySelectorAll isBtn w).map glowListener) } := by
  have h1 := foldl_addEventListener "click" (fun _ => Handler.smoothScroll)
  have h2 := foldl_addEventListener "mousemove" Handler.buttonGlow
  simp only [setup, h1, h2]
  simp [addEventListener, querySelectorAll, World.node?, loadListener,
    clickListener, glowListener]
  rfl

theorem mem_querySelectorAll (p : Element → Bool) (w : World) (n : Nat) :
    n ∈ querySelectorAll p w ↔ ∃ el, w.node? n = some el ∧ p el = true := by
  simp only [querySelectorAll, List.mem_filter, List.mem_range]
  constructor
  · rintro ⟨_, h⟩
    cases hn : w.node? n with
    | none => simp [hn] at h
    | some el => exact ⟨el, rfl, by simpa [hn] using h⟩
  · rintro ⟨el, hel, hp⟩
    refine ⟨?_, by simp [hel, hp]⟩
    simp only [World.node?] at hel
    exact (List.getElem?_eq_some_iff.mp hel).1

theorem nodup_querySelectorAll (p : Element → Bool) (w : World) :
    (querySelectorAll p w).Nodup :=
  (List.nodup_range _).filter _

theorem clickCount_append (l1 l2 : List Listener) (t : EventTarget) :
    clickCount (l1 ++ l2) t = clickCount l1 t + clickCount l2 t := by
  simp [clickCount]

theorem clickCount_clickListeners (l : List Nat) (hl : l.Nodup) (n : Nat) :
    clickCount (l.map clickListener) (EventTarget.node n) =
      if n ∈ l then 1 else 0 := by
  induction l with
  | nil => simp [clickCount]
  | cons a rest ih =>
    have hnd := List.nodup_cons.mp hl
    have ih2 := ih hnd.2
    simp only [clickCount] at ih2
    by_cases han : a = n
    · subst han
      simp [clickCount, clickListener, hnd.1] at ih2 ⊢
      exact ih2
    · have hna : ¬ n = a := fun h => han h.symm
      simp [clickCount, clickListener, han, hna] at ih2 ⊢
      exact ih2

theorem clickCount_glowListeners (l : List Nat) (t : EventTarget) :
    clickCount (l.map glowListener) t = 0 := by
  induction l with
  | nil => simp [clickCount]
  | cons a rest ih =>
    simp only [clickCount] at ih
    simp [clickCount, glowListener] at ih ⊢

theorem clickCount_clickListeners_document (l : List Nat) :
    clickCount (l.map clickListener) EventTarget.document = 0 := by
  induction l with
  | nil => simp [clickCount]
  | cons a rest ih =>
    simp only [clickCount] at ih
    simp [clickCount, clickListener] at ih ⊢

/-- C7. The setup adds exactly one `click` listener, the scroll handler, on
each element that `a[href^="#"]` selects at that moment, and no `click`
listener on any other element nor on the document. The selected elements are
the `a` elements whose `href` begins with `#`, an `href` that is just `#`
included. Elements the page-load handler creates later get no listener: it
leaves the listeners as the setup left them. -/
theorem setup_click_listeners (w : World) (host : Host) :
    (∀ n, clickCount (setup w).listeners (EventTarget.node n) =
      clickCount w.listeners (EventTarget.node n) +
        if n ∈ querySelectorAll isFragmentAnchor w then 1 else 0) ∧
    clickCount (setup w).listeners EventTarget.document =
      clickCount w.listeners EventTarget.document ∧
    (∀ a ∈ querySelectorAll isFragmentAnchor w,
      clickListener a ∈ (setup w).listeners) ∧
    (∀ n, n ∈ querySelectorAll isFragmentAnchor w ↔
      ∃ el v, w.node? n = some el ∧ el.localName = "a" ∧
        el.attributes.lookup "href" = some v ∧ beginsWithHash v = true) ∧
    beginsWithHash "#" = true ∧
    (particleBackground host (setup w)).listeners = (setup w).listeners := by
  have hload : ∀ t, clickCount [loadListener] t = 0 := by
    intro t
    simp [clickCount, loadListener]
  refine ⟨?_, ?_, ?_, ?_, rfl, particleBackground_listeners host _⟩
  · intro n
    rw [setup_eq]
    show clickCount (w.listeners ++ ([loadListener] ++
      ((querySelectorAll isFragmentAnchor w).map clickListener ++
        (querySelectorAll isBtn w).map glowListener))) _ = _
    rw [clickCount_append, clickCount_append, clickCount_append, hload,
      clickCount_clickListeners _ (nodup_querySelectorAll _ _),
      clickCount_glowListeners]
    omega
  · rw [setup_eq]
    show clickCount (w.listeners ++ ([loadListener] ++
      ((querySelectorAll isFragmentAnchor w).map clickListener ++
        (querySelectorAll isBtn w).map glowListener))) _ = _
    rw [clickCount_append, clickCount_append, clickCount_append, hload,
      clickCount_clickListeners_document, clickCount_glowListeners]
    omega
  · intro a ha
    rw [setup_eq]
    simp only [List.mem_append, List.mem_cons, List.mem_map]
    exact Or.inr (Or.inr (Or.inl ⟨a, ha, rfl⟩))
  · intro n
    rw [mem_querySelectorAll]
    constructor
    · rintro ⟨el, hel, hp⟩
      simp only [isFragmentAnchor, Bool.and_eq_true, beq_iff_eq] at hp
      cases hv : el.attributes.lookup "href" with
      | none => simp [hv] at hp
      | some v =>
        simp only [hv] at hp
        exact ⟨el, v, hel, hp.1, hv, hp.2⟩
    · rintro ⟨el, v, hel, ha, hv, hh⟩
      exact ⟨el, hel, by simp [isFragmentAnchor, ha, hv, hh]⟩

/-- C6. The setup is a total function, so it ends without an error on every
document. It always registers the page-load handler on the document, the
scroll handler on every element `a[href^="#"]` selects and the glow handler
on every element `.btn` selects, and it changes no element. With no `.btn`
element the listeners added are the page-load listener and one click listener
per anchor; with no such anchor they are the page-load listener and one glow
listener per button. -/
theorem setup_lenient (w : World) :
    loadListener ∈ (setup w).listeners ∧
    (∀ a ∈ querySelectorAll isFragmentAnchor w,
      clickListener a ∈ (setup w).listeners) ∧
    (∀ b ∈ querySelectorAll isBtn w, glowListener b ∈ (setup w).listeners) ∧
    (setup w).nodes = w.nodes ∧
    (querySelectorAll isBtn w = [] →
      (setup w).listeners = w.listeners ++ loadListener ::
        (querySelectorAll isFragmentAnchor w).map clickListener) ∧
    (querySelectorAll isFragmentAnchor w = [] →
      (setup w).listeners = w.listeners ++ loadListener ::
        (querySelectorAll isBtn w).map glowListener) := by
  rw [setup_eq]
  refine ⟨by simp, ?_, ?_, rfl, ?_, ?_⟩
  · intro a ha
    simp only [List.mem_append, List.mem_cons, List.mem_map]
    exact Or.inr (Or.inr (Or.inl ⟨a, ha, rfl⟩))
  · intro b hb
    simp only [List.mem_append, List.mem_cons, List.mem_map]
    exact Or.inr (Or.inr (Or.inr ⟨b, hb, rfl⟩))
  · intro h
    simp [h]
  · intro h
    simp [h]

theorem setup_lenient_witness :
    querySelectorAll isBtn barePage = [] ∧
    querySelectorAll isFragmentAnchor barePage = [] ∧
    (setup barePage).listeners = [loadListener] ∧
    (setup samplePage).listeners =
      [loadListener, clickListener 2, clickListener 3, glowListener 4] :=
  ⟨by decide, by decide,
    (setup_lenient barePage).2.2.2.2.1 (by decide),
    by decide⟩

theorem setup_click_listeners_witness :
    querySelectorAll isFragmentAnchor samplePage = [2, 3] ∧
    clickCount (setup samplePage).listeners (EventTarget.node 2) = 1 ∧
    clickCount (setup samplePage).listeners (EventTarget.node 4) = 0 :=
  ⟨by decide,
    (setup_click_listeners samplePage sampleHost).1 2,
    (setup_click_listeners samplePage sampleHost).1 4⟩

/-! ## Repeated runs of the page-load handler -/

theorem particleBackground_body (host : Host) (w : World)
    (hb : w.body < w.nodes.length) : (particleBackground host w).body = w.body := by
  rw [particleBackground_eq host w hb]

theorem particleBackground_body_children (host : Host) (w : World)
    (hb : w.body < w.nodes.length) :
    childrenOf (particleBackground host w) w.body =
      childrenOf w w.body ++ [w.nodes.length] := by
  have h := particleBackground_old host w hb w.body hb
  unfold childrenOf
  rw [h]
  simp only [if_true]
  cases hw : w.node? w.body with
  | none =>
    simp only [World.node?] at hw
    rw [List.getElem?_eq_none_iff] at hw
    omega
  | some e => simp [addChildren]

theorem particleBackground_container_children (host : Host) (w : World)
    (hb : w.body < w.nodes.length) :
    childrenOf (particleBackground host w) w.nodes.length =
      List.range' (w.nodes.length + 1) numParticles := by
  simp [childrenOf, particleBackground_container host w hb, containerAt]

theorem particleBackground_isParticleContainer_old (host : Host) (w : World)
    (hb : w.body < w.nodes.length) (c : Nat) (hc : c < w.nodes.length) :
    isParticleContainer (particleBackground host w) c = isParticleContainer w c := by
  unfold isParticleContainer
  rw [particleBackground_old host w hb c hc]
  by_cases h : c = w.body
  · rw [if_pos h]
    cases w.node? c <;> rfl
  · rw [if_neg h]

theorem particleBackground_isParticle_old (host : Host) (w : World)
    (hb : w.body < w.nodes.length) (p : Nat) (hp : p < w.nodes.length) :
    isParticle (particleBackground host w) p = isParticle w p := by
  unfold isParticle
  rw [particleBackground_old host w hb p hp]
  by_cases h : p = w.body
  · rw [if_pos h]
    cases w.node? p <;> rfl
  · rw [if_neg h]

theorem particleBackground_childrenOf_old (host : Host) (w : World)
    (hb : w.body < w.nodes.length) (c : Nat) (hc : c < w.nodes.length)
    (hne : c ≠ w.body) :
    childrenOf (particleBackground host w) c = childrenOf w c := by
  unfold childrenOf
  rw [particleBackground_old host w hb c hc, if_neg hne]

theorem particleBackground_containers (host : Host) (w : World)
    (hb : w.body < w.nodes.length)
    (hv : ∀ c ∈ childrenOf w w.body, c < w.nodes.length) :
    containers (particleBackground host w) = containers w ++ [w.nodes.length] := by
  unfold containers
  rw [particleBackground_body host w hb, particleBackground_body_children host w hb,
    List.filter_append]
  congr 1
  · apply List.filter_congr
    intro c hc
    exact particleBackground_isParticleContainer_old host w hb c (hv c hc)
  · have h : isParticleContainer (particleBackground host w) w.nodes.length = true := by
      unfold isParticleContainer
      rw [particleBackground_container host w hb]
      rfl
    simp [h]

theorem mem_containers_lt (w : World)
    (hv : ∀ c ∈ childrenOf w w.body, c < w.nodes.length) (c : Nat)
    (hc : c ∈ containers w) : c < w.nodes.length :=
  hv c (List.mem_filter.mp hc).1

theorem RunsInv.step (host : Host) (w : World) (n : Nat) (h : RunsInv w n) :
    RunsInv (particleBackground host w) (n + 1) := by
  have hb := h.body_lt
  have hlen := particleBackground_length host w hb
  have hcs := particleBackground_containers host w hb h.children_lt
  have hbody := particleBackground_body host w hb
  have hnew := particleBackground_container_children host w hb
  have hold : ∀ c ∈ containers w,
      childrenOf (particleBackground host w) c = childrenOf w c := by
    intro c hc
    exact particleBackground_childrenOf_old host w hb c
      (mem_containers_lt w h.children_lt c hc) (h.container c hc).1
  have hflat : (containers (particleBackground host w)).flatMap
        (childrenOf (particleBackground host w)) =
      (containers w).flatMap (childrenOf w) ++
        List.range' (w.nodes.length + 1) numParticles := by
    rw [hcs, List.flatMap_append, List.flatMap_congr hold,
      List.flatMap_singleton, hnew]
  refine ⟨?_, ?_, ?_, ?_, ?_, ?_⟩
  · rw [hbody, hlen]
    omega
  · rw [hbody, particleBackground_body_children host w hb, hlen]
    intro c hc
    rcases List.mem_append.mp hc with hc | hc
    · have := h.children_lt c hc
      omega
    · simp only [List.mem_singleton] at hc
      omega
  · rw [hcs, List.length_append, h.count]
    rfl
  · rw [hcs]
    refine List.Nodup.append h.nodup (List.nodup_singleton _) ?_
    intro c hc hc2
    have := mem_containers_lt w h.children_lt c hc
    simp only [List.mem_singleton] at hc2
    omega
  · intro c hc
    rw [hcs] at hc
    rw [hbody, hlen]
    rcases List.mem_append.mp hc with hc | hc
    · obtain ⟨h1, h2, h3⟩ := h.container c hc
      rw [hold c hc]
      refine ⟨h1, h2, ?_⟩
      intro p hp
      obtain ⟨hp1, hp2⟩ := h3 p hp
      refine ⟨by omega, ?_⟩
      rw [particleBackground_isParticle_old host w hb p hp1]
      exact hp2
    · simp only [List.mem_singleton] at hc
      subst hc
      rw [hnew]
      refine ⟨by omega, by simp, ?_⟩
      intro p hp
      obtain ⟨j, hj, rfl⟩ := mem_range'_numParticles _ p hp
      refine ⟨by omega, ?_⟩
      unfold isParticle
      rw [particleBackground_particle host w hb j hj]
      simp [particleAt]
  · rw [hflat]
    refine List.Nodup.append h.particles_nodup (List.nodup_range' _ _) ?_
    intro p hp hp2
    obtain ⟨c, hc, hpc⟩ := List.mem_flatMap.mp hp
    have h1 := ((h.container c hc).2.2 p hpc).1
    rw [List.mem_range'] at hp2
    obtain ⟨i, _, hi⟩ := hp2
    omega

theorem RunsInv.runs (host : Host) (w : World) (n : Nat) (h : RunsInv w 0) :
    RunsInv (particleBackgroundRuns host n w) n := by
  induction n with
  | zero => exact h
  | succ n ih => exact RunsInv.step host _ n ih

theorem flatMap_length_const {α β : Type} (f : α → List β) (k : Nat) (l : List α)
    (h : ∀ a ∈ l, (f a).length = k) : (l.flatMap f).length = k * l.length := by
  induction l with
  | nil => simp
  | cons a rest ih =>
    rw [List.flatMap_cons, List.length_append, h a (List.mem_cons_self _ _),
      ih (fun b hb => h b (List.mem_cons_of_mem _ hb)), List.length_cons]
    ring

/-- C10. Start from a document with a body whose children exist and none of
which has the id `particle-bg`. After `n` runs of the page-load handler the
body has exactly `n` children with id `particle-bg`, all different; each has
exactly 60 children, every one a `div` carrying the class `particle`; and the
children of the containers are `60 * n` different elements in all. -/
theorem particleBackgroundRuns_count (host : Host) (w : World) (n : Nat)
    (hb : w.body < w.nodes.length)
    (hv : ∀ c ∈ childrenOf w w.body, c < w.nodes.length)
    (hno : containers w = []) :
    (containers (particleBackgroundRuns host n w)).length = n ∧
    (containers (particleBackgroundRuns host n w)).Nodup ∧
    (∀ c ∈ containers (particleBackgroundRuns host n w),
      (childrenOf (particleBackgroundRuns host n w) c).length = 60 ∧
      ∀ p ∈ childrenOf (particleBackgroundRuns host n w) c,
        isParticle (particleBackgroundRuns host n w) p = true) ∧
    ((containers (particleBackgroundRuns host n w)).flatMap
      (childrenOf (particleBackgroundRuns host n w))).length = 60 * n ∧
    ((containers (particleBackgroundRuns host n w)).flatMap
      (childrenOf (particleBackgroundRuns host n w))).Nodup := by
  have h0 : RunsInv w 0 :=
    ⟨hb, hv, by rw [hno]; rfl, by rw [hno]; exact List.nodup_nil,
      by rw [hno]; intro c hc; simp at hc, by rw [hno]; simp⟩
  have h := RunsInv.runs host w n h0
  refine ⟨h.count, h.nodup, ?_, ?_, h.particles_nodup⟩
  · intro c hc
    obtain ⟨_, h2, h3⟩ := h.container c hc
    exact ⟨h2, fun p hp => (h3 p hp).2⟩
  · rw [flatMap_length_const _ 60 _ (fun c hc => (h.container c hc).2.1), h.count]

theorem particleBackgroundRuns_count_witness :
    samplePage.body < samplePage.nodes.length ∧
    (∀ c ∈ childrenOf samplePage samplePage.body, c < samplePage.nodes.length) ∧
    containers samplePage = [] ∧
    (containers (particleBackgroundRuns sampleHost 2 samplePage)).length = 2 ∧
    ((containers (particleBackgroundRuns sampleHost 2 samplePage)).flatMap
      (childrenOf (particleBackgroundRuns sampleHost 2 samplePage))).length =
        60 * 2 :=
  have h := particleBackgroundRuns_count sampleHost samplePage 2 (by decide)
    (by decide) (by decide)
  ⟨by decide, by decide, by decide, h.1, h.2.2.2.1⟩

end ArchaeoMap
